import Mathlib

/-!
Verification of the Turing-machine engine in `main.py` of emnh/turing-machines.

The embedding mirrors `TuringMachine` from `src/main.py`: states are strings,
tape symbols and directions are characters (the source uses one-character
strings throughout), the transition dictionary is a partial function from
(state, symbol) to (new state, write symbol, direction), and the mutable
object is a record threaded through `step` and `run` explicitly.
-/

/-- A step log entry, the tuple `transitions[key] + (written,)` returned by
`TuringMachine.step` in `main.py`: (new_state, write_symbol, direction,
optional index of the cell reported as changed). -/
def StepLog : Type := String × Char × Char × Option Nat

instance : DecidableEq StepLog := by
  unfold StepLog
  infer_instance

/-- The configuration and mutable state of `TuringMachine.__init__` in
`main.py`: declared states and alphabet, transition table, the three
distinguished states, the blank symbol, and the mutable tape, head position
and current state. -/
structure TuringMachine where
  states : List String
  alphabet : List Char
  transitions : String → Char → Option (String × Char × Char)
  start_state : String
  accept_state : String
  reject_state : String
  blank_symbol : Char
  tape : List Char
  head_position : Nat
  current_state : String

/-- Lines 40-44 of `main.py`: `reset` puts a single blank on the tape, the
head at 0 and the current state back to the start state. -/
def TuringMachine.reset (m : TuringMachine) : TuringMachine :=
  { m with tape := [m.blank_symbol], head_position := 0,
           current_state := m.start_state }

/-- Lines 46-49 of `main.py`: `load_tape` replaces the tape with the
characters of the input string and puts the head at 0; nothing else of the
machine is touched. -/
def TuringMachine.load_tape (m : TuringMachine) (input : String) : TuringMachine :=
  { m with tape := input.data, head_position := 0 }

/-- Lines 75-81 of `main.py`, the write phase of `step`: in bounds, the cell
is overwritten and `written` is set to the head index exactly when the new
symbol differs from the old; out of bounds, the symbol is appended and
`written` stays `None`. Returns the new tape and the `written` value. -/
def writeCell (tape : List Char) (head : Nat) (write_symbol : Char) :
    List Char × Option Nat :=
  if h : head < tape.length then
    (tape.set head write_symbol,
     if tape.get ⟨head, h⟩ ≠ write_symbol then some head else none)
  else
    (tape ++ [write_symbol], none)

/-- Lines 83-95 of `main.py`, the movement phase of `step`: on `'R'` the head
advances and, past the end, a blank is appended with `written` set to the new
head index; on `'L'` the head retreats or, at index 0, a blank is inserted at
the front with `written` set to 0; any other direction leaves everything
unchanged. Returns the new tape, new head and the movement's `written`
assignment (`none` when the movement did not assign it). -/
def moveHead (direction : Char) (tape : List Char) (head : Nat) (blank : Char) :
    List Char × Nat × Option Nat :=
  if direction = 'R' then
    if head + 1 ≥ tape.length then
      (tape ++ [blank], head + 1, some (head + 1))
    else
      (tape, head + 1, none)
  else if direction = 'L' then
    if head > 0 then
      (tape, head - 1, none)
    else
      (blank :: tape, 0, some 0)
  else
    (tape, head, none)

/-- In `main.py` the local `written` is first assigned by the write phase and
then possibly reassigned by the movement phase (lines 88 and 95); the
movement's assignment, when it happens, wins. -/
def overrideWritten (writeW moveW : Option Nat) : Option Nat :=
  match moveW with
  | some w => some w
  | none => writeW

/-- Lines 51-98 of `main.py`: one step of the machine. In a terminal state it
returns the machine unchanged and `none` (line 58); on a missing transition it
moves the current state to the reject state and returns `none` (lines 65-68);
otherwise it writes, moves the head and returns the step log tuple
(lines 70-98). The read at line 61 yields the blank symbol when the head is
past the end of the materialized tape. -/
def TuringMachine.step (m : TuringMachine) : TuringMachine × Option StepLog :=
  if m.current_state = m.accept_state ∨ m.current_state = m.reject_state then
    (m, none)
  else
    match m.transitions m.current_state (m.tape.getD m.head_position m.blank_symbol) with
    | none => ({ m with current_state := m.reject_state }, none)
    | some (new_state, write_symbol, direction) =>
        ({ m with
            current_state := new_state,
            tape := (moveHead direction (writeCell m.tape m.head_position write_symbol).1
                      m.head_position m.blank_symbol).1,
            head_position := (moveHead direction (writeCell m.tape m.head_position write_symbol).1
                      m.head_position m.blank_symbol).2.1 },
         some (new_state, write_symbol, direction,
           overrideWritten (writeCell m.tape m.head_position write_symbol).2
             (moveHead direction (writeCell m.tape m.head_position write_symbol).1
               m.head_position m.blank_symbol).2.2))

/-- Lines 133-149 of `main.py`, the loop of `run`: while the step counter is
below the bound, call `step`; stop at the first `None`, otherwise collect the
step log. Returns the final machine, the collected step logs (one per row the
source appends inside the loop; the pre-loop initial row and the printing are
presentation) and the number of `step` calls made. -/
def runAux (m : TuringMachine) (fuel : Nat) : TuringMachine × List StepLog × Nat :=
  match fuel with
  | 0 => (m, [], 0)
  | fuel' + 1 =>
    match m.step with
    | (m', none) => (m', [], 1)
    | (m', some log) =>
      match runAux m' fuel' with
      | (m'', logs, calls) => (m'', log :: logs, calls + 1)

/-- Line 111 of `main.py`: `run(max_steps)` drives the loop with the given
step budget (the source default is 1000). -/
def TuringMachine.run (m : TuringMachine) (max_steps : Nat) :
    TuringMachine × List StepLog × Nat :=
  runAux m max_steps

/-- Lines 168-178 of `main.py`: the transition table of the shipped
binary-increment example. -/
def bincTransitions (s : String) (c : Char) : Option (String × Char × Char) :=
  match s, c with
  | "q0", '0' => some ("q0", '0', 'R')
  | "q0", '1' => some ("q0", '1', 'R')
  | "q0", '_' => some ("carry", '_', 'L')
  | "carry", '0' => some ("accept", '1', 'N')
  | "carry", '1' => some ("carry", '0', 'L')
  | "carry", '_' => some ("accept", '1', 'N')
  | _, _ => none

/-- Lines 161-185 of `main.py`: the shipped binary-increment machine, as
built by `__init__` (which ends in `reset`, so the tape starts as one blank,
the head at 0 and the current state at the start state). -/
def bincMachine : TuringMachine :=
  { states := ["q0", "carry", "accept", "reject"]
    alphabet := ['0', '1', '_']
    transitions := bincTransitions
    start_state := "q0"
    accept_state := "accept"
    reject_state := "reject"
    blank_symbol := '_'
    tape := ['_']
    head_position := 0
    current_state := "q0" }

/-- The transition table of a machine whose single rule moves right over an
`'a'` without changing it; used to exercise the right-move blank append. -/
def onceRightTransitions (s : String) (c : Char) : Option (String × Char × Char) :=
  match s, c with
  | "q0", 'a' => some ("q1", 'a', 'R')
  | _, _ => none

/-- A machine about to take its single right-moving step at the last
materialized cell. -/
def onceRightM : TuringMachine :=
  { states := ["q0", "q1"]
    alphabet := ['a', '_']
    transitions := onceRightTransitions
    start_state := "q0"
    accept_state := "acc"
    reject_state := "rej"
    blank_symbol := '_'
    tape := ['a']
    head_position := 0
    current_state := "q0" }

/-- The transition table of a machine whose single rule fires on a blank read
and writes `'X'` staying put; used to exercise the write one past the end of
an empty tape (reached by loading the empty input string). -/
def appendWriteTransitions (s : String) (c : Char) : Option (String × Char × Char) :=
  match s, c with
  | "q0", '_' => some ("q1", 'X', 'N')
  | _, _ => none

/-- A machine with an empty materialized tape, so its head at 0 sits exactly
one past the end. -/
def emptyTapeM : TuringMachine :=
  { states := ["q0", "q1"]
    alphabet := ['X', '_']
    transitions := appendWriteTransitions
    start_state := "q0"
    accept_state := "acc"
    reject_state := "rej"
    blank_symbol := '_'
    tape := []
    head_position := 0
    current_state := "q0" }

/-- The shipped machine at the carry-over-a-one configuration with the head
at index 0: the next rule is `('carry','1') -> ('carry','0','L')`, a changing
write followed by a left move at the left edge. -/
def carryLeftM : TuringMachine :=
  { bincMachine with tape := ['1'], current_state := "carry" }

/-- The shipped machine at the carry-over-a-zero configuration: the next rule
is `('carry','0') -> ('accept','1','N')`, whose direction is the catch-all
`'N'`. -/
def carryStayM : TuringMachine :=
  { bincMachine with tape := ['0'], current_state := "carry" }

/-- The shipped machine in its accept state. -/
def acceptedBincM : TuringMachine :=
  { bincMachine with current_state := "accept" }

/-- The shipped machine with its transition table emptied, so every lookup
misses. -/
def noRuleM : TuringMachine :=
  { bincMachine with transitions := fun _ _ => none }

/-! Helper lemmas characterizing `step` on each branch of the source, and the
bounds the write and movement phases keep. -/

lemma TuringMachine.step_terminal (m : TuringMachine)
    (h : m.current_state = m.accept_state ∨ m.current_state = m.reject_state) :
    m.step = (m, none) := by
  unfold TuringMachine.step
  rw [if_pos h]

lemma TuringMachine.step_no_rule (m : TuringMachine)
    (h1 : ¬(m.current_state = m.accept_state ∨ m.current_state = m.reject_state))
    (h2 : m.transitions m.current_state (m.tape.getD m.head_position m.blank_symbol) = none) :
    m.step = ({ m with current_state := m.reject_state }, none) := by
  unfold TuringMachine.step
  rw [if_neg h1, h2]

lemma TuringMachine.step_rule (m : TuringMachine) (ns : String) (ws d : Char)
    (h1 : ¬(m.current_state = m.accept_state ∨ m.current_state = m.reject_state))
    (h2 : m.transitions m.current_state (m.tape.getD m.head_position m.blank_symbol)
          = some (ns, ws, d)) :
    m.step =
      ({ m with
          current_state := ns,
          tape := (moveHead d (writeCell m.tape m.head_position ws).1
                    m.head_position m.blank_symbol).1,
          head_position := (moveHead d (writeCell m.tape m.head_position ws).1
                    m.head_position m.blank_symbol).2.1 },
       some (ns, ws, d,
         overrideWritten (writeCell m.tape m.head_position ws).2
           (moveHead d (writeCell m.tape m.head_position ws).1
             m.head_position m.blank_symbol).2.2)) := by
  unfold TuringMachine.step
  rw [if_neg h1, h2]

lemma writeCell_head_lt_length (tape : List Char) (head : Nat) (ws : Char)
    (h : head ≤ tape.length) :
    head < ((writeCell tape head ws).1).length := by
  unfold writeCell
  split
  · simpa
  · simp
    omega

lemma moveHead_head_lt_length (d : Char) (tape : List Char) (head : Nat) (b : Char)
    (h : head < tape.length) :
    (moveHead d tape head b).2.1 < ((moveHead d tape head b).1).length := by
  unfold moveHead
  split_ifs <;> simp <;> omega

lemma moveHead_stay (d : Char) (tape : List Char) (head : Nat) (b : Char)
    (hR : d ≠ 'R') (hL : d ≠ 'L') :
    moveHead d tape head b = (tape, head, none) := by
  unfold moveHead
  rw [if_neg hR, if_neg hL]


/-! Claim theorems. -/

/-- C1 counterexample: in the source, a right move past the end appends a
blank and sets `written` to its index (line 88 of `main.py`). Here the write
puts `'a'` over `'a'` (no change, so the write phase leaves `written` as
`None`), the movement appends a blank at index 1, and the step log reports
`written = 1` — the appended blank's index — refuting the claim that a
movement-appended blank is never reported as the changed index. -/
theorem movement_append_reported_as_written :
    onceRightM.step.2 = some ("q1", 'a', 'R', some 1) ∧
    onceRightM.step.1.tape = ['a', '_'] ∧
    onceRightM.tape = ['a'] := by
  decide

/-- C1 amended: the step log's `written` field reports the movement phase's
extension index whenever the movement extends the tape — the index `head + 1`
of the blank appended by a right move past the end, and index 0 of the blank
inserted by a left move at the left edge — overriding the write phase's
changed index; only when the movement assigns nothing is the write phase's
changed index reported. -/
theorem written_field_reports_movement_extension
    (m : TuringMachine) (ns : String) (ws d : Char)
    (h1 : ¬(m.current_state = m.accept_state ∨ m.current_state = m.reject_state))
    (h2 : m.transitions m.current_state (m.tape.getD m.head_position m.blank_symbol)
          = some (ns, ws, d)) :
    (d = 'R' → ((writeCell m.tape m.head_position ws).1).length ≤ m.head_position + 1 →
        m.step.2 = some (ns, ws, d, some (m.head_position + 1))) ∧
    (d = 'L' → m.head_position = 0 →
        m.step.2 = some (ns, ws, d, some 0)) ∧
    ((moveHead d (writeCell m.tape m.head_position ws).1
        m.head_position m.blank_symbol).2.2 = none →
        m.step.2 = some (ns, ws, d, (writeCell m.tape m.head_position ws).2)) := by
  rw [TuringMachine.step_rule m ns ws d h1 h2]
  refine ⟨?_, ?_, ?_⟩
  · intro hd hlen
    subst hd
    unfold moveHead
    rw [if_pos rfl, if_pos (by omega)]
    rfl
  · intro hd hhead
    subst hd
    rw [hhead]
    unfold moveHead
    rw [if_neg (by decide), if_pos rfl, if_neg (by omega)]
    rfl
  · intro hmv
    simp only [hmv]
    rfl

/-- C1 witness: the shipped carry-propagation rule writes `'0'` and moves
left at index 0; the amended theorem applies and the log reports the inserted
blank's index 0. -/
theorem written_field_reports_movement_extension_witness :
    carryLeftM.step.2 = some ("carry", '0', 'L', some 0) :=
  (written_field_reports_movement_extension carryLeftM "carry" '0' 'L'
    (by decide) rfl).2.1 rfl rfl

/-- C2 counterexample: with an empty materialized tape (reachable via
`load_tape("")`) the head at 0 targets exactly one past the end; the step
appends the written symbol `'X'`, yet the step log's `written` field is
`None` — no changed index is recorded, refuting the claim. -/
theorem append_write_records_no_changed_index :
    emptyTapeM.step.1.tape = ['X'] ∧
    emptyTapeM.step.2 = some ("q1", 'X', 'N', none) := by
  decide

/-- C2 amended: a write whose target index equals exactly one past the end of
the materialized tape extends the tape by one cell holding the written
symbol, but records no changed index — the write phase leaves `written`
absent (lines 80-81 of `main.py`). -/
theorem write_one_past_end_appends_without_changed_index
    (tape : List Char) (head : Nat) (ws : Char) (h : head = tape.length) :
    writeCell tape head ws = (tape ++ [ws], none) := by
  unfold writeCell
  rw [dif_neg (by omega)]

/-- C2 witness: writing one past the end of the one-cell tape `['a']` appends
the symbol and records no changed index. -/
theorem write_one_past_end_appends_without_changed_index_witness :
    writeCell ['a'] 1 '_' = (['a', '_'], none) :=
  write_one_past_end_appends_without_changed_index ['a'] 1 '_' rfl

/-- C3: running the shipped binary-increment machine on input `"110"` halts
in the accept state; the materialized tape is `"111_"` — the digits `111`
followed by the single blank appended when the head scanned past the right
end — so the tape contents, ignoring that trailing blank, are exactly
`"111"`. -/
theorem binc_110_accepts_with_tape_111 :
    ((bincMachine.load_tape "110").run 1000).1.current_state = bincMachine.accept_state ∧
    ((bincMachine.load_tape "110").run 1000).1.tape = ['1', '1', '1', '_'] ∧
    (((bincMachine.load_tape "110").run 1000).1.tape.reverse.dropWhile
        (fun c => c = '_')).reverse = ['1', '1', '1'] := by
  decide

/-- C4: on a missing transition, `step` moves the current state to the reject
state, touches neither the tape nor the head, and returns the halt signal
(`None`) instead of raising. -/
theorem missing_rule_rejects_without_write (m : TuringMachine)
    (h1 : ¬(m.current_state = m.accept_state ∨ m.current_state = m.reject_state))
    (h2 : m.transitions m.current_state (m.tape.getD m.head_position m.blank_symbol) = none) :
    m.step = ({ m with current_state := m.reject_state }, none) :=
  TuringMachine.step_no_rule m h1 h2

/-- C4 witness: the shipped machine with an emptied transition table rejects
in place on its first step. -/
theorem missing_rule_rejects_without_write_witness :
    noRuleM.step = ({ noRuleM with current_state := "reject" }, none) :=
  missing_rule_rejects_without_write noRuleM (by decide) rfl

/-- C5: in a terminal (accept or reject) state, `step` returns the machine
unchanged with the halt signal `None`, and calling `step` again on the result
does exactly the same — a no-op, idempotent. -/
theorem terminal_step_is_idempotent_noop (m : TuringMachine)
    (h : m.current_state = m.accept_state ∨ m.current_state = m.reject_state) :
    m.step = (m, none) ∧ m.step.1.step = (m, none) := by
  have h1 := TuringMachine.step_terminal m h
  refine ⟨h1, ?_⟩
  rw [h1]
  exact h1

/-- C5 witness: the shipped machine in its accept state halts unchanged,
twice. -/
theorem terminal_step_is_idempotent_noop_witness :
    acceptedBincM.step = (acceptedBincM, none) ∧
    acceptedBincM.step.1.step = (acceptedBincM, none) :=
  terminal_step_is_idempotent_noop acceptedBincM (Or.inl rfl)

/-- C6: `run(max_steps=N)` makes at most N calls to `step` and collects at
most N step logs. -/
theorem run_bounded_by_budget (m : TuringMachine) (N : Nat) :
    (m.run N).2.2 ≤ N ∧ ((m.run N).2.1).length ≤ N := by
  unfold TuringMachine.run
  induction N generalizing m with
  | zero =>
    simp [runAux]
  | succ n ih =>
    rcases hs : m.step with ⟨m', log⟩
    cases log with
    | none =>
      simp [runAux, hs]
    | some l =>
      have ih' := ih m'
      simp only [runAux, hs]
      rcases hr : runAux m' n with ⟨m'', logs, calls⟩
      rw [hr] at ih'
      obtain ⟨ha, hb⟩ := ih'
      simp only [List.length_cons]
      simp at ha hb
      exact ⟨by omega, by omega⟩

/-- C7 counterexample: the shipped carry rule `('carry','1') ->
('carry','0','L')` at head 0 first writes `'0'` over the `'1'` and only then
inserts the blank at the front, so after the step index 1 holds the written
`'0'`, not the `'1'` that was at index 0 before the step — refuting the claim
that the pre-step symbol at index 0 is at index 1 afterwards. -/
theorem left_insert_hides_former_symbol :
    carryLeftM.tape = ['1'] ∧
    carryLeftM.step.1.tape = ['_', '0'] ∧
    carryLeftM.step.1.head_position = 0 ∧
    ¬ carryLeftM.step.1.tape.getD 1 '_' = carryLeftM.tape.getD 0 '_' := by
  decide

/-- C7 amended: a transition with direction Left taken at Head Position 0 on
a nonempty materialized tape grows the tape by exactly one cell, leaves the
head at 0, and puts the symbol written by the step (not necessarily the
pre-step symbol) at index 1. -/
theorem left_move_at_zero_shifts_written_symbol
    (m : TuringMachine) (ns : String) (ws : Char)
    (h1 : ¬(m.current_state = m.accept_state ∨ m.current_state = m.reject_state))
    (h2 : m.transitions m.current_state (m.tape.getD m.head_position m.blank_symbol)
          = some (ns, ws, 'L'))
    (hhead : m.head_position = 0) (hlen : 0 < m.tape.length) :
    (m.step.1.tape).length = m.tape.length + 1 ∧
    m.step.1.head_position = 0 ∧
    m.step.1.tape.getD 1 m.blank_symbol = ws := by
  rw [TuringMachine.step_rule m ns ws 'L' h1 h2, hhead]
  rcases htape : m.tape with _ | ⟨a, tl⟩
  · rw [htape] at hlen
    simp at hlen
  · unfold writeCell
    rw [dif_pos (by simp)]
    unfold moveHead
    rw [if_neg (by decide), if_pos rfl, if_neg (by decide)]
    exact ⟨rfl, rfl, rfl⟩

/-- C7 witness: the shipped machine's first step on its freshly reset tape
`['_']` fires `('q0','_') -> ('carry','_','L')` at head 0. -/
theorem left_move_at_zero_shifts_written_symbol_witness :
    (bincMachine.step.1.tape).length = bincMachine.tape.length + 1 ∧
    bincMachine.step.1.head_position = 0 ∧
    bincMachine.step.1.tape.getD 1 bincMachine.blank_symbol = '_' :=
  left_move_at_zero_shifts_written_symbol bincMachine "carry" '_'
    (by decide) rfl rfl (by decide)

/-- C8: `load_tape` sets the tape to exactly the characters of the input and
the head to 0, and leaves the current state and the whole configuration
(transition table, the three distinguished states, blank symbol, declared
states and alphabet) unchanged. -/
theorem load_tape_resets_head_and_keeps_rest (m : TuringMachine) (input : String) :
    (m.load_tape input).tape = input.data ∧
    (m.load_tape input).head_position = 0 ∧
    (m.load_tape input).current_state = m.current_state ∧
    (m.load_tape input).transitions = m.transitions ∧
    (m.load_tape input).start_state = m.start_state ∧
    (m.load_tape input).accept_state = m.accept_state ∧
    (m.load_tape input).reject_state = m.reject_state ∧
    (m.load_tape input).blank_symbol = m.blank_symbol ∧
    (m.load_tape input).states = m.states ∧
    (m.load_tape input).alphabet = m.alphabet :=
  ⟨rfl, rfl, rfl, rfl, rfl, rfl, rfl, rfl, rfl, rfl⟩

/-- C9: the head always rests on a materialized cell. `load_tape` and `reset`
establish head ≤ tape length (the head is a natural number, so 0 ≤ head holds
by type); every `step` preserves it, and a `step` that performs a transition
(returns a step log) leaves the head strictly inside the materialized
tape. -/
theorem head_rests_on_materialized_cell :
    (∀ (m : TuringMachine) (input : String),
        (m.load_tape input).head_position ≤ ((m.load_tape input).tape).length) ∧
    (∀ m : TuringMachine, m.reset.head_position ≤ (m.reset.tape).length) ∧
    (∀ m : TuringMachine, m.head_position ≤ m.tape.length →
        m.step.1.head_position ≤ (m.step.1.tape).length ∧
        (m.step.2.isSome = true → m.step.1.head_position < (m.step.1.tape).length)) := by
  refine ⟨fun m input => Nat.zero_le _, fun m => Nat.zero_le _, fun m h => ?_⟩
  by_cases ht : m.current_state = m.accept_state ∨ m.current_state = m.reject_state
  · rw [TuringMachine.step_terminal m ht]
    exact ⟨h, fun hc => by simp at hc⟩
  · rcases hlook : m.transitions m.current_state (m.tape.getD m.head_position m.blank_symbol)
      with _ | ⟨ns, ws, d⟩
    · rw [TuringMachine.step_no_rule m ht hlook]
      exact ⟨h, fun hc => by simp at hc⟩
    · rw [TuringMachine.step_rule m ns ws d ht hlook]
      have hw : m.head_position < ((writeCell m.tape m.head_position ws).1).length :=
        writeCell_head_lt_length m.tape m.head_position ws h
      have hm := moveHead_head_lt_length d (writeCell m.tape m.head_position ws).1
        m.head_position m.blank_symbol hw
      exact ⟨Nat.le_of_lt hm, fun _ => hm⟩

/-- C9 witness: the shipped machine's first step performs a transition and
leaves the head strictly inside the materialized tape. -/
theorem head_rests_on_materialized_cell_witness :
    bincMachine.step.1.head_position < (bincMachine.step.1.tape).length :=
  (head_rests_on_materialized_cell.2.2 bincMachine (by decide)).2 (by decide)

/-- C10: any direction other than `'R'` and `'L'` (such as the `'N'` used in
the shipped example) falls through both branches of the movement phase: the
movement leaves the tape, head and `written` assignment untouched, and the
whole step keeps the head where it was and the tape exactly as the write
phase left it. -/
theorem stay_is_catchall_direction :
    (∀ (d : Char) (tape : List Char) (head : Nat) (blank : Char),
        d ≠ 'R' → d ≠ 'L' → moveHead d tape head blank = (tape, head, none)) ∧
    (∀ (m : TuringMachine) (ns : String) (ws d : Char),
        ¬(m.current_state = m.accept_state ∨ m.current_state = m.reject_state) →
        m.transitions m.current_state (m.tape.getD m.head_position m.blank_symbol)
          = some (ns, ws, d) →
        d ≠ 'R' → d ≠ 'L' →
        m.step.1.head_position = m.head_position ∧
        m.step.1.tape = (writeCell m.tape m.head_position ws).1) := by
  refine ⟨moveHead_stay, fun m ns ws d h1 h2 hR hL => ?_⟩
  rw [TuringMachine.step_rule m ns ws d h1 h2,
      moveHead_stay d (writeCell m.tape m.head_position ws).1 m.head_position
        m.blank_symbol hR hL]
  exact ⟨rfl, rfl⟩

/-- C10 witness: the shipped `('carry','0') -> ('accept','1','N')` rule with
direction `'N'` leaves the head at 0 and the tape exactly as written. -/
theorem stay_is_catchall_direction_witness :
    moveHead 'N' ['0'] 0 '_' = (['0'], 0, none) ∧
    (carryStayM.step.1.head_position = carryStayM.head_position ∧
     carryStayM.step.1.tape = (writeCell carryStayM.tape carryStayM.head_position '1').1) :=
  ⟨stay_is_catchall_direction.1 'N' ['0'] 0 '_' (by decide) (by decide),
   stay_is_catchall_direction.2 carryStayM "accept" '1' 'N'
     (by decide) rfl (by decide) (by decide)⟩
